import Mathlib

/-!
Shallow embedding of the polar-sensor-app sleep engine
(`src/backend/cole_kripke_direct.py`, `src/backend/main.py`,
`src/backend/havok_analysis.py`) and proofs about its claims.
All machine arithmetic is modelled over `ℚ` (the Python code computes with
exact-enough floats over small integer-derived data; claims are about the
algorithmic structure, not float rounding).
-/

namespace PolarSensor

/-! ## Cole-Kripke classifier (`cole_kripke_direct.py`, `apply_cole_kripke`) -/

/-- Cole-Kripke preprocessing: `(df[activity_column] / 100).clip(upper=300)`. -/
def ckClip (c : ℚ) : ℚ := min (c / 100) 300

/-- Cole-Kripke coefficient table, in the insertion order of the Python dict. -/
def ckCoefficients : List (ℤ × ℚ) :=
  [(-4, 106), (-3, 54), (-2, 58), (-1, 76), (0, 230), (1, 74), (2, 67)]

/-- `scaled_activity.shift(-offset).fillna(0)` evaluated at row `i`:
the scaled value at row `i + offset`, or `0` when that row is out of range. -/
def ckShifted (scaled : List ℚ) (off : ℤ) (i : ℕ) : ℚ :=
  let j : ℤ := (i : ℤ) + off
  if 0 ≤ j ∧ j < (scaled.length : ℤ) then scaled.getD j.toNat 0 else 0

/-- The Cole-Kripke sleep index at epoch `i`: the loop
`for offset, coef in coefficients.items(): sleep_index += coef * shifted`,
followed by `sleep_index *= 0.001`. -/
def sleepIndex (acts : List ℚ) (i : ℕ) : ℚ :=
  (ckCoefficients.foldl
    (fun acc p => acc + p.2 * ckShifted (acts.map ckClip) p.1 i) 0) * (1 / 1000)

/-- `df['sleep_wake'] = (sleep_index >= 1).astype(int)`: `true` = sleep. -/
def sleepWake (acts : List ℚ) (i : ℕ) : Bool := 1 ≤ sleepIndex acts i

/-- Specification-side padded scaled activity: the scaled count at (integer)
epoch `j`, with out-of-range offsets contributing `0` (zero boundary padding).
Written independently of `ckClip`/`ckShifted` from the claim's wording. -/
def specScaled (acts : List ℚ) (j : ℤ) : ℚ :=
  if 0 ≤ j ∧ j < (acts.length : ℤ) then min (acts.getD j.toNat 0 / 100) 300 else 0

/-- C1: the Cole-Kripke classifier scales counts by `/100` clipped at `300`,
computes `SI(i) = 0.001·(106·s(i−4) + 54·s(i−3) + 58·s(i−2) + 76·s(i−1) +
230·s(i) + 74·s(i+1) + 67·s(i+2))` with zero boundary padding, and labels
epoch `i` sleep iff `SI(i) ≥ 1`. -/
theorem cole_kripke_formula (acts : List ℚ) (i : ℕ) :
    sleepIndex acts i =
      (1 / 1000) *
        (106 * specScaled acts ((i : ℤ) - 4) + 54 * specScaled acts ((i : ℤ) - 3) +
         58 * specScaled acts ((i : ℤ) - 2) + 76 * specScaled acts ((i : ℤ) - 1) +
         230 * specScaled acts (i : ℤ) + 74 * specScaled acts ((i : ℤ) + 1) +
         67 * specScaled acts ((i : ℤ) + 2)) ∧
    (sleepWake acts i = true ↔ 1 ≤ sleepIndex acts i) := by
  constructor
  · have hs : ∀ off : ℤ, ckShifted (acts.map ckClip) off i = specScaled acts ((i : ℤ) + off) := by
      intro off
      unfold ckShifted specScaled
      simp only [List.length_map]
      split
      · next h =>
        have hlt : ((i : ℤ) + off).toNat < acts.length := by omega
        rw [List.getD_eq_getElem _ _ (by simpa using hlt), List.getElem_map,
          List.getD_eq_getElem _ _ hlt]
        rfl
      · rfl
    unfold sleepIndex
    simp only [ckCoefficients, List.foldl, hs]
    ring_nf
  · unfold sleepWake
    exact decide_eq_true_iff

/-! ## Cole-Kripke metrics extractor (`cole_kripke_direct.py`, `extract_sleep_metrics`)

The extractor is invoked (via `analyze_sleep_with_hypnospy` →
`prepare_data_for_hypnospy`) on a frame whose `DatetimeIndex` is a contiguous
1-minute `date_range`, so we model the index as epoch positions `0, 1, 2, …`
(minutes) over the binary `sleep_wake` column (`true` = sleep). -/

/-- Single left-to-right pass of run-length encoding: `cur`/`start`/`len` is
the run currently being grown, `rest` the unprocessed labels. -/
def runsGo : List Bool → Bool → ℕ → ℕ → List (Bool × ℕ × ℕ)
  | [], cur, start, len => [(cur, start, len)]
  | b :: rest, cur, start, len =>
    if b = cur then runsGo rest cur start (len + 1)
    else (cur, start, len) :: runsGo rest b (start + len) 1

/-- Run-length encoding with start positions: `(value, start, length)` for each
maximal run of equal labels, mirroring the
`(sleep_wake != sleep_wake.shift()).cumsum()` grouping. -/
def runsWithStart : List Bool → List (Bool × ℕ × ℕ)
  | [] => []
  | b :: rest => runsGo rest b 0 1

/-- One comparison step of pandas `idxmax` over the run-size series. -/
def pickStep (best : Option (Bool × ℕ × ℕ)) (r : Bool × ℕ × ℕ) : Option (Bool × ℕ × ℕ) :=
  match best with
  | none => some r
  | some b => if r.2.2 > b.2.2 then some r else some b

/-- `sleep_groups.idxmax()`: the first run of maximal length (pandas `idxmax`
returns the first occurrence of the maximum). -/
def pickMain (rs : List (Bool × ℕ × ℕ)) : Option (Bool × ℕ × ℕ) :=
  rs.foldl pickStep none

/-- `(col != col.shift()).cumsum()` over a column: the episode id of each row
(the first row always starts episode 1, because `x != NaN` is `True`). -/
def episodeIdsGo (prev : Option Bool) (c : ℕ) : List Bool → List ℕ
  | [] => []
  | v :: rest =>
    let c' := c + (if prev = some v then 0 else 1)
    c' :: episodeIdsGo (some v) c' rest

/-- `Series.nunique()` of the episode-id column. -/
def nuniqueEpisodes (vs : List Bool) : ℕ := (episodeIdsGo none 0 vs).dedup.length

/-- The sleep-summary record built by `extract_sleep_metrics` (the fields the
claims are about; timestamps are epoch positions in minutes; output rounding
to 1 decimal place is omitted — all values of interest here are exact). -/
structure CKSummary where
  sleep_onset : ℕ
  wake_time : ℕ
  total_sleep_time : ℕ
  time_in_bed : ℕ
  sleep_efficiency : ℚ
  wake_after_sleep_onset : ℕ
  number_of_awakenings : ℕ
  awakening_index : ℚ
deriving DecidableEq, Repr

instance {ε α : Type} [DecidableEq ε] [DecidableEq α] : DecidableEq (Except ε α) :=
  fun a b =>
    match a, b with
    | .ok x, .ok y =>
      if h : x = y then isTrue (by rw [h]) else isFalse (fun hh => by cases hh; exact h rfl)
    | .error x, .error y =>
      if h : x = y then isTrue (by rw [h]) else isFalse (fun hh => by cases hh; exact h rfl)
    | .ok _, .error _ => isFalse (fun hh => by cases hh)
    | .error _, .ok _ => isFalse (fun hh => by cases hh)

/-- `extract_sleep_metrics(results_df)` over the binary `sleep_wake` column:
run-length groups, longest sleep run as main sleep, efficiency from
`(wake_time − sleep_onset)` minutes, WASO and awakening count from the wake
rows inside `[sleep_onset, wake_time]`. -/
def extractSleepMetrics (labels : List Bool) : Except String CKSummary :=
  let rs := runsWithStart labels
  let sleepRs := rs.filter (fun r => r.1 = true)
  match pickMain sleepRs with
  | none => .error "No sleep periods detected by Cole-Kripke algorithm"
  | some m =>
    let onset := m.2.1
    let len := m.2.2
    let wake := onset + len - 1
    let tst := len
    let dur : ℕ := wake - onset
    let eff : ℚ := if 0 < dur then (tst : ℚ) / (dur : ℚ) * 100 else 0
    let bedWakes := (List.range labels.length).filter
      (fun k => onset ≤ k ∧ k ≤ wake ∧ labels.getD k true = false)
    let numAw := if 0 < bedWakes.length
      then nuniqueEpisodes (bedWakes.map (fun _ => false)) else 0
    .ok
      { sleep_onset := onset
        wake_time := wake
        total_sleep_time := tst
        time_in_bed := dur
        sleep_efficiency := eff
        wake_after_sleep_onset := bedWakes.length
        number_of_awakenings := numAw
        awakening_index := if 0 < tst then (numAw : ℚ) / ((tst : ℚ) / 60) else 0 }

/-- Every run reported by `runsGo` is nonempty, lies inside the list, and all
its positions carry the run's value. -/
lemma runsGo_spec (L : List Bool) :
    ∀ (rest : List Bool) (cur : Bool) (start len : ℕ),
      start + len + rest.length = L.length →
      (∀ k, k < len → L[start + k]? = some cur) →
      (∀ j, L[start + len + j]? = rest[j]?) →
      1 ≤ len →
      ∀ r ∈ runsGo rest cur start len,
        1 ≤ r.2.2 ∧ r.2.1 + r.2.2 ≤ L.length ∧
          ∀ k, k < r.2.2 → L[r.2.1 + k]? = some r.1 := by
  intro rest
  induction rest with
  | nil =>
    intro cur start len h1 h2 _ h4 r hr
    simp only [runsGo, List.mem_singleton] at hr
    subst hr
    exact ⟨h4, by simpa using h1.le, h2⟩
  | cons b rest ih =>
    intro cur start len h1 h2 h3 h4 r hr
    simp only [runsGo] at hr
    by_cases hbc : b = cur
    · rw [if_pos hbc] at hr
      refine ih cur start (len + 1) (by simp at h1 ⊢; omega) ?_ ?_ (by omega) r hr
      · intro k hk
        rcases Nat.lt_succ_iff_lt_or_eq.mp hk with hk' | hk'
        · exact h2 k hk'
        · subst hk'
          have := h3 0
          simpa [hbc] using this
      · intro j
        have := h3 (j + 1)
        have harith : start + len + (j + 1) = start + (len + 1) + j := by omega
        rw [harith] at this
        simpa using this
    · rw [if_neg hbc] at hr
      rcases List.mem_cons.mp hr with hr | hr
      · subst hr
        refine ⟨h4, by simp at h1 ⊢; omega, h2⟩
      · refine ih b (start + len) 1 (by simp at h1 ⊢; omega) ?_ ?_ le_rfl r hr
        · intro k hk
          have hk0 : k = 0 := by omega
          subst hk0
          have := h3 0
          simpa using this
        · intro j
          have := h3 (j + 1)
          have harith : start + len + (j + 1) = start + len + 1 + j := by omega
          rw [harith] at this
          simpa using this

/-- Every run of `runsWithStart L` is nonempty, lies inside `L`, and all its
positions carry the run's value. -/
lemma runs_spec (L : List Bool) :
    ∀ r ∈ runsWithStart L,
      1 ≤ r.2.2 ∧ r.2.1 + r.2.2 ≤ L.length ∧
        ∀ k, k < r.2.2 → L[r.2.1 + k]? = some r.1 := by
  match L with
  | [] => intro r hr; simp [runsWithStart] at hr
  | b :: rest =>
    intro r hr
    refine runsGo_spec (b :: rest) rest b 0 1 (by simp; omega) ?_ ?_ le_rfl r hr
    · intro k hk
      have hk0 : k = 0 := by omega
      subst hk0
      simp
    · intro j
      have : 0 + 1 + j = j + 1 := by omega
      rw [this]
      simp

/-- The value of every run is a member of the label list. -/
lemma runs_val_mem (L : List Bool) (r : Bool × ℕ × ℕ) (hr : r ∈ runsWithStart L) :
    r.1 ∈ L := by
  obtain ⟨h1, _, h3⟩ := runs_spec L r hr
  exact List.getElem?_mem (by simpa using h3 0 h1)

/-- A `pickStep` fold starting from an accumulator returns either the
accumulator's content or a member of the list. -/
lemma pickFold_mem :
    ∀ (rs : List (Bool × ℕ × ℕ)) (acc : Option (Bool × ℕ × ℕ)) (c : Bool × ℕ × ℕ),
      rs.foldl pickStep acc = some c → acc = some c ∨ c ∈ rs := by
  intro rs
  induction rs with
  | nil => intro acc c h; exact Or.inl (by simpa using h)
  | cons r rs ih =>
    intro acc c h
    simp only [List.foldl_cons] at h
    rcases ih (pickStep acc r) c h with h' | h'
    · match acc with
      | none =>
        simp only [pickStep] at h'
        exact Or.inr (List.mem_cons.mpr (Or.inl (by simpa using h'.symm)))
      | some b =>
        simp only [pickStep] at h'
        split at h'
        · exact Or.inr (List.mem_cons.mpr (Or.inl (by simpa using h'.symm)))
        · exact Or.inl (by simpa using h')
    · exact Or.inr (List.mem_cons.mpr (Or.inr h'))

/-- `pickMain` of a list returns a member of the list. -/
lemma pickMain_mem (rs : List (Bool × ℕ × ℕ)) (c : Bool × ℕ × ℕ)
    (h : pickMain rs = some c) : c ∈ rs := by
  rcases pickFold_mem rs none c h with h' | h'
  · cases h'
  · exact h'

/-- `pickMain` of the empty list is `none`. -/
lemma pickMain_nil : pickMain [] = none := rfl

example : extractSleepMetrics [false, true, true, false] =
    .ok ⟨1, 2, 2, 1, 200, 0, 0, 0⟩ := by
  norm_num [extractSleepMetrics, runsWithStart, runsGo, pickMain, pickStep, List.foldl,
    List.range_succ, List.filter, nuniqueEpisodes, episodeIdsGo]

example : extractSleepMetrics [true, true] = .ok ⟨0, 1, 2, 1, 200, 0, 0, 0⟩ := by
  norm_num [extractSleepMetrics, runsWithStart, runsGo, pickMain, pickStep, List.foldl,
    List.range_succ, List.filter, nuniqueEpisodes, episodeIdsGo]

example : extractSleepMetrics [false, false] =
    .error "No sleep periods detected by Cole-Kripke algorithm" := by
  norm_num [extractSleepMetrics, runsWithStart, runsGo, pickMain, pickStep, List.foldl,
    List.range_succ, List.filter, nuniqueEpisodes, episodeIdsGo]

/-! ## Threshold classifier and metrics (`main.py`, `analyze_sleep_with_simple_algorithm`) -/

/-- Insert into a sorted list (helper for sorting; pandas `sort_values` /
`np.sort` — tie order among equal keys is unspecified there, we use the
stable insertion order). -/
def insertSorted {α : Type} (le : α → α → Bool) (x : α) : List α → List α
  | [] => [x]
  | y :: rest => if le x y then x :: y :: rest else y :: insertSorted le x rest

/-- Sort a list by a boolean comparison. -/
def sortByLe {α : Type} (le : α → α → Bool) (l : List α) : List α :=
  l.foldr (insertSorted le) []

/-- Sorted copy of a rational column. -/
def sortQ (xs : List ℚ) : List ℚ := sortByLe (fun a b => a ≤ b) xs

/-- `⌊x⌋` as a natural number for a nonnegative rational (numerator divided by
denominator with flooring natural division); used for the virtual index of the
linear-interpolation quantile. -/
def ratFloorNat (x : ℚ) : ℕ := x.num.toNat / x.den

/-- Linear-interpolation quantile, as computed by `Series.quantile(q)` /
`np.percentile(xs, 100*q)`: virtual index `h = (n−1)·q` into the sorted
values, interpolating between the two bracketing order statistics. -/
def pQuantile (q : ℚ) (xs : List ℚ) : ℚ :=
  let s := sortQ xs
  let n := s.length
  if n = 0 then 0
  else
    let h : ℚ := ((n : ℚ) - 1) * q
    let lo : ℕ := ratFloorNat h
    let frac : ℚ := h - (lo : ℚ)
    let a := s.getD lo 0
    let b := s.getD (min (lo + 1) (n - 1)) 0
    a + frac * (b - a)

/-- One merged epoch row (`merged_data` in `analyze_sleep`): timestamp in
seconds, activity magnitude, movement intensity, optional heart rate. -/
structure MRow where
  timestamp : ℚ
  activity_magnitude : ℚ
  movement_intensity : ℚ
  heart_rate : Option ℚ
deriving DecidableEq, Repr

/-- The labelling stage of `analyze_sleep_with_simple_algorithm`: the activity
threshold is the 40th percentile of `activity_magnitude`, the heart-rate
threshold is the 60th percentile of the non-null heart rates (computed but
not applied: the `if hr_threshold is not None` body is `pass`), and
`likely_sleep = activity_magnitude < activity_threshold`. -/
def computeLikelySleep (act : List ℚ) (hr : List (Option ℚ)) : List Bool :=
  let activityThreshold := pQuantile (40 / 100) act
  let hrSome := hr.filterMap id
  let _hrThreshold : Option ℚ :=
    if hrSome.isEmpty then none else some (pQuantile (60 / 100) hrSome)
  act.map (fun a => decide (a < activityThreshold))

/-- The awakening-tolerant sleep-block loop of
`analyze_sleep_with_simple_algorithm`: `i` is the index of the next label,
`inS` the start of the open block (if any), `awake` the count of consecutive
non-sleep epochs inside the open block, `acc` the recorded blocks. -/
def detectGo : List Bool → ℕ → Option ℕ → ℕ → List (ℕ × ℕ) → List (ℕ × ℕ)
  | [], i, inS, _, acc =>
    match inS with
    | some s => if i - s ≥ 10 then acc ++ [(s, i - 1)] else acc
    | none => acc
  | b :: rest, i, inS, awake, acc =>
    if b then detectGo rest (i + 1) (some (inS.getD i)) 0 acc
    else
      match inS with
      | some s =>
        if awake + 1 > 3 then
          detectGo rest (i + 1) none 0
            (if i - s ≥ 10 then acc ++ [(s, i - (awake + 1) - 1)] else acc)
        else detectGo rest (i + 1) (some s) (awake + 1) acc
      | none => detectGo rest (i + 1) none awake acc

/-- Sleep-block detection over the `likely_sleep` labels (`max_awake_tolerance
= 3`, minimum `idx - sleep_start >= 10`, final open block recorded when
`len(df) - sleep_start >= 10`). -/
def detectBlocks (labels : List Bool) : List (ℕ × ℕ) := detectGo labels 0 none 0 []

/-- The awakening-counting loop over `[lo, hi]`:
`if not likely_sleep: if not in_wake_period: awakenings += 1 …`. -/
def countAwGo (v : ℕ → Bool) : ℕ → ℕ → Bool → ℕ → ℕ
  | _, 0, _, c => c
  | k, fuel + 1, inWake, c =>
    if v k = false then
      if inWake then countAwGo v (k + 1) fuel true c
      else countAwGo v (k + 1) fuel true (c + 1)
    else countAwGo v (k + 1) fuel false c

/-- `number_of_awakenings` as computed by the threshold path: walk the labels
from `sleep_onset_idx` to `wake_idx` counting starts of wake periods. -/
def countAwakenings (labels : List Bool) (lo hi : ℕ) : ℕ :=
  countAwGo (fun k => labels.getD k false) lo (hi + 1 - lo) false 0

/-- The list `[k, k+1, …, k+f−1]` (explicit index range). -/
def idxRange (k : ℕ) : ℕ → List ℕ
  | 0 => []
  | f + 1 => k :: idxRange (k + 1) f

/-- Specification-side count of maximal wake runs inside `[lo, hi]`: the
number of positions `k ∈ [lo, hi]` that start a maximal run of wake labels
(i.e. `k` is wake and either `k = lo` or `k−1` is sleep). -/
def specWakeRuns (v : ℕ → Bool) (lo hi : ℕ) : ℕ :=
  ((idxRange lo (hi + 1 - lo)).filter
    (fun k => v k = false ∧ (k = lo ∨ v (k - 1) = true))).length

/-- `Series.min()` over a rational column (0 for an empty column; the engine
only applies it to nonempty frames). -/
def colMin (xs : List ℚ) : ℚ :=
  match xs with
  | [] => 0
  | x :: rest => rest.foldl min x

/-- `Series.max()` over a rational column. -/
def colMax (xs : List ℚ) : ℚ :=
  match xs with
  | [] => 0
  | x :: rest => rest.foldl max x

/-- Sleep summary returned by the threshold path (fields the claims are
about; output rounding to 2 decimal places is omitted — rounding maps
`[0,100]` into itself and the claims' values are exact). -/
structure TSummary where
  sleep_onset : Option ℚ
  wake_time : Option ℚ
  total_sleep_time : ℚ
  time_in_bed : ℚ
  sleep_efficiency : ℚ
  sleep_onset_latency : Option ℚ
  wake_after_sleep_onset : Option ℕ
  number_of_awakenings : ℕ
  awakening_index : ℚ
deriving DecidableEq, Repr

/-- `analyze_sleep_with_simple_algorithm(df)`: fails below 10 merged rows,
sorts by timestamp, labels epochs by the activity threshold, detects
awakening-tolerant sleep blocks, and extracts the summary (first block start
= onset, last block end = wake, efficiency over the whole series span). -/
def analyzeSimple (rows : List MRow) : Except String TSummary :=
  if rows.length < 10 then
    .error "Insufficient processed data for sleep analysis"
  else
    let df := sortByLe (fun a b => a.timestamp ≤ b.timestamp) rows
    let labels := computeLikelySleep (df.map (·.activity_magnitude)) (df.map (·.heart_rate))
    let blocks := detectBlocks labels
    let tsCol := df.map (·.timestamp)
    match blocks with
    | [] =>
      .ok
        { sleep_onset := none
          wake_time := none
          total_sleep_time := 0
          time_in_bed := (colMax tsCol - colMin tsCol) / 60
          sleep_efficiency := 0
          sleep_onset_latency := none
          wake_after_sleep_onset := none
          number_of_awakenings := 0
          awakening_index := 0 }
    | b0 :: brest =>
      let onsetIdx := b0.1
      let wakeIdx := (brest.getLastD b0).2
      let tsAt := fun i => (df.getD i ⟨0, 0, 0, none⟩).timestamp
      let sleepOnset := tsAt onsetIdx
      let wakeTime := tsAt wakeIdx
      let totalSleep := ((b0 :: brest).map (fun p => (tsAt p.2 - tsAt p.1) / 60)).sum
      let timeInBed := (colMax tsCol - colMin tsCol) / 60
      let eff := if timeInBed > 0 then totalSleep / timeInBed * 100 else 0
      let latency := (sleepOnset - colMin tsCol) / 60
      let waso := ((idxRange 0 df.length).filter
        (fun i => onsetIdx ≤ i ∧ i ≤ wakeIdx ∧ labels.getD i false = false)).length
      let awakenings := countAwakenings labels onsetIdx wakeIdx
      let awIndex := if totalSleep > 0 then (awakenings : ℚ) / (totalSleep / 60) else 0
      .ok
        { sleep_onset := some sleepOnset
          wake_time := some wakeTime
          total_sleep_time := totalSleep
          time_in_bed := timeInBed
          sleep_efficiency := eff
          sleep_onset_latency := some latency
          wake_after_sleep_onset := some waso
          number_of_awakenings := awakenings
          awakening_index := awIndex }

example : detectBlocks (List.replicate 7 true ++ List.replicate 4 false) = [(0, 5)] := by
  decide

example : detectBlocks (List.replicate 10 true) = [(0, 9)] := by decide

example : detectBlocks (List.replicate 9 true) = [] := by decide

example : countAwakenings [true, false, true, false, false, true] 0 5 = 2 := by decide

example : specWakeRuns (fun k => [true, false, true, false, false, true].getD k false) 0 5 = 2 := by
  decide

/-! ## Lemmas about the awakening count and the main-sleep window -/

/-- Membership in an explicit index range. -/
lemma idxRange_mem (f : ℕ) : ∀ (k j : ℕ), j ∈ idxRange k f ↔ k ≤ j ∧ j < k + f := by
  induction f with
  | zero => intro k j; simp [idxRange]
  | succ f ih =>
    intro k j
    simp only [idxRange, List.mem_cons, ih]
    omega

/-- The per-position counted condition of the awakening loop: position `j`
is counted iff it is wake and either it is the first scanned position with a
clear `in_wake` flag, or the previous position is sleep. -/
def awCounted (v : ℕ → Bool) (lo : ℕ) (w : Bool) (j : ℕ) : Bool :=
  decide (v j = false) && (if j = lo then !w else decide (v (j - 1) = true))

/-- One step of the awakening loop, written uniformly: the `in_wake` flag
becomes `¬(v k)` and the count increments exactly when `k` is counted. -/
lemma countAwGo_step (v : ℕ → Bool) (fuel k : ℕ) (w : Bool) (c : ℕ) :
    countAwGo v k (fuel + 1) w c =
      countAwGo v (k + 1) fuel (!v k) (if awCounted v k w k then c + 1 else c) := by
  cases hv : v k <;> cases w <;> simp [countAwGo, awCounted, hv]

/-- The tail predicate with shifted base agrees with the original predicate
on positions past the base. -/
lemma awCounted_shift (v : ℕ → Bool) (k : ℕ) (w : Bool) (j : ℕ) (hj : k + 1 ≤ j) :
    awCounted v (k + 1) (!v k) j = awCounted v k w j := by
  have hne : j ≠ k := by omega
  by_cases hje : j = k + 1
  · subst hje
    cases hv : v k <;> simp [awCounted, hne, hv]
  · simp [awCounted, hne, hje]

/-- The awakening-counting loop counts exactly the wake-run starts. -/
lemma countAwGo_eq (v : ℕ → Bool) :
    ∀ (fuel k : ℕ) (w : Bool) (c : ℕ),
      countAwGo v k fuel w c =
        c + ((idxRange k fuel).filter (awCounted v k w)).length := by
  intro fuel
  induction fuel with
  | zero => intro k w c; simp [countAwGo, idxRange]
  | succ fuel ih =>
    intro k w c
    rw [countAwGo_step, ih]
    have htail : (idxRange (k + 1) fuel).filter (awCounted v (k + 1) (!v k)) =
        (idxRange (k + 1) fuel).filter (awCounted v k w) := by
      apply List.filter_congr
      intro j hj
      exact awCounted_shift v k w j ((idxRange_mem fuel (k + 1) j).mp hj).1
    rw [htail]
    simp only [idxRange, List.filter_cons]
    cases hc : awCounted v k w k <;> simp [hc] <;> omega

/-- The loop-based awakening count equals the spec-side count of maximal wake
runs inside `[lo, hi]`. -/
lemma countAwakenings_eq_specWakeRuns (labels : List Bool) (lo hi : ℕ) :
    countAwakenings labels lo hi = specWakeRuns (fun k => labels.getD k false) lo hi := by
  unfold countAwakenings specWakeRuns
  rw [countAwGo_eq]
  simp only [Nat.zero_add]
  congr 1
  apply List.filter_congr
  intro j hj
  have hjlo : lo ≤ j := ((idxRange_mem _ lo j).mp hj).1
  by_cases hje : j = lo
  · subst hje
    simp [awCounted]
  · simp [awCounted, hje]

/-- If `extract_sleep_metrics` succeeds, its `[sleep_onset, wake_time]` window
consists of the main (longest) sleep run, so every label inside the window is
sleep, and the reported awakening count is `0`. -/
lemma extract_ok_window (labels : List Bool) (r : CKSummary)
    (h : extractSleepMetrics labels = .ok r) :
    (∀ k, r.sleep_onset ≤ k → k ≤ r.wake_time → labels.getD k false = true) ∧
      r.number_of_awakenings = 0 := by
  unfold extractSleepMetrics at h
  cases hpm : pickMain ((runsWithStart labels).filter (fun x => decide (x.1 = true))) with
  | none =>
    simp only [hpm] at h
    exact absurd h (by simp)
  | some m =>
    simp only [hpm] at h
    have hmem := pickMain_mem _ _ hpm
    have hm := List.mem_filter.mp hmem
    have hval : m.1 = true := by simpa using hm.2
    obtain ⟨hlen, hbound, hspan⟩ := runs_spec labels m hm.1
    have hwin : ∀ k, m.2.1 ≤ k → k ≤ m.2.1 + m.2.2 - 1 → labels.getD k false = true := by
      intro k h1 h2
      have hk : k - m.2.1 < m.2.2 := by omega
      have := hspan (k - m.2.1) hk
      have hidx : m.2.1 + (k - m.2.1) = k := by omega
      rw [hidx] at this
      rw [List.getD_eq_getElem?_getD, this, hval]
      rfl
    have hbed : (List.range labels.length).filter
        (fun k => decide (m.2.1 ≤ k ∧ k ≤ m.2.1 + m.2.2 - 1 ∧ labels.getD k true = false)) = [] := by
      apply List.filter_eq_nil_iff.mpr
      intro k _
      simp only [decide_eq_true_eq, not_and]
      intro h1 h2
      have hw := hwin k h1 h2
      have hget : labels.getD k true = true := by
        have hklen : k < labels.length := by omega
        rw [List.getD_eq_getElem?_getD] at hw ⊢
        rw [List.getElem?_eq_getElem hklen] at hw ⊢
        simpa using hw
      intro hc
      rw [hget] at hc
      exact Bool.noConfusion hc
    rw [Except.ok.injEq] at h
    constructor
    · intro k h1 h2
      rw [← h] at h1 h2
      exact hwin k h1 h2
    · rw [← h]
      simp only [hbed]
      simp

/-- C3: on both metrics paths, the reported `number_of_awakenings` equals the
number of maximal wake runs inside `[sleep_onset, wake_time]` — the threshold
path counts wake-run starts directly, and the Cole-Kripke path's window is the
longest pure sleep run, which contains no wake run, matching its reported 0. -/
theorem number_of_awakenings_eq_wake_runs :
    (∀ (labels : List Bool) (lo hi : ℕ),
        countAwakenings labels lo hi =
          specWakeRuns (fun k => labels.getD k false) lo hi) ∧
    (∀ (labels : List Bool) (r : CKSummary), extractSleepMetrics labels = .ok r →
        r.number_of_awakenings =
          specWakeRuns (fun k => labels.getD k false) r.sleep_onset r.wake_time) := by
  constructor
  · exact countAwakenings_eq_specWakeRuns
  · intro labels r h
    obtain ⟨hwin, hzero⟩ := extract_ok_window labels r h
    rw [hzero]
    unfold specWakeRuns
    symm
    rw [List.length_eq_zero]
    apply List.filter_eq_nil_iff.mpr
    intro j hj
    obtain ⟨h1, h2⟩ := (idxRange_mem _ _ j).mp hj
    have hw := hwin j h1 (by omega)
    simp only [decide_eq_true_eq, not_and]
    intro hfalse
    rw [hw] at hfalse
    exact Bool.noConfusion hfalse

/-- Witness for `number_of_awakenings_eq_wake_runs` at concrete inputs. -/
theorem number_of_awakenings_eq_wake_runs_witness :
    countAwakenings [true, false, true, false, false, true] 0 5 =
      specWakeRuns (fun k => [true, false, true, false, false, true].getD k false) 0 5 ∧
    (⟨1, 2, 2, 1, 200, 0, 0, 0⟩ : CKSummary).number_of_awakenings =
      specWakeRuns (fun k => [false, true, true, false].getD k false) 1 2 :=
  ⟨number_of_awakenings_eq_wake_runs.1 [true, false, true, false, false, true] 0 5,
   number_of_awakenings_eq_wake_runs.2 [false, true, true, false] ⟨1, 2, 2, 1, 200, 0, 0, 0⟩
     (by norm_num [extractSleepMetrics, runsWithStart, runsGo, pickMain, pickStep, List.foldl,
       List.range_succ, List.filter, nuniqueEpisodes, episodeIdsGo])⟩

/-- C2: the Cole-Kripke metrics extractor fails with the
"no sleep periods detected" error on any all-wake label series, and the
threshold-path analysis fails with an insufficient-data error on any merged
series of fewer than 10 epochs. -/
theorem error_on_no_sleep_and_insufficient_data :
    (∀ labels : List Bool, (∀ b ∈ labels, b = false) →
        extractSleepMetrics labels =
          .error "No sleep periods detected by Cole-Kripke algorithm") ∧
    (∀ rows : List MRow, rows.length < 10 → ∃ e, analyzeSimple rows = .error e) := by
  constructor
  · intro labels hall
    have hfil : (runsWithStart labels).filter (fun r => r.1 = true) = [] := by
      apply List.filter_eq_nil_iff.mpr
      intro r hr
      have := hall r.1 (runs_val_mem labels r hr)
      simp [this]
    simp only [extractSleepMetrics, hfil, pickMain, List.foldl]
  · intro rows h
    exact ⟨_, by rw [analyzeSimple, if_pos h]⟩

/-- Witness for `error_on_no_sleep_and_insufficient_data` at concrete
inputs. -/
theorem error_on_no_sleep_and_insufficient_data_witness :
    extractSleepMetrics [false, false] =
      .error "No sleep periods detected by Cole-Kripke algorithm" ∧
    ∃ e, analyzeSimple [] = .error e :=
  ⟨error_on_no_sleep_and_insufficient_data.1 [false, false] (by decide),
   error_on_no_sleep_and_insufficient_data.2 [] (by decide)⟩

/-- C4 (refuting evaluation): on the label series wake, sleep, sleep, wake
(1-minute contiguous epochs) the Cole-Kripke metrics path reports
`sleep_efficiency_percent = 200`, strictly above the claimed upper bound 100:
its `time_in_bed` is `wake_time − sleep_onset` = 1 minute while the 2-epoch
main sleep run contributes 2 minutes of sleep. -/
theorem ck_sleep_efficiency_exceeds_100 :
    extractSleepMetrics [false, true, true, false] = .ok ⟨1, 2, 2, 1, 200, 0, 0, 0⟩ ∧
      ¬((200 : ℚ) ≤ 100) := by
  constructor
  · norm_num [extractSleepMetrics, runsWithStart, runsGo, pickMain, pickStep, List.foldl,
      List.range_succ, List.filter, nuniqueEpisodes, episodeIdsGo]
  · norm_num

/-! ## Sleep-block detection properties (threshold path, C6) -/

/-- Characterization of a recorded sleep block `p = (start, end)` of the
threshold path's block loop over labels `L`: either it is the final
still-open block (ending at the last epoch, with `L.length - start ≥ 10`),
or it was closed at the 4th consecutive non-sleep epoch, at some index `i`
with `i - start ≥ 10`, recording `end = i - 5`, with the four epochs
`i-3 … i` all non-sleep. -/
def blockOk (L : List Bool) (p : ℕ × ℕ) : Prop :=
  (p.2 = L.length - 1 ∧ p.1 + 10 ≤ L.length) ∨
  (∃ i, i < L.length ∧ p.1 + 10 ≤ i ∧ p.2 + 5 = i ∧
    ∀ k, i - 3 ≤ k → k ≤ i → L.getD k true = false)

/-- Loop invariant for `detectGo`: every recorded block satisfies `blockOk`. -/
lemma detectGo_spec (L : List Bool) :
    ∀ (rest : List Bool) (i : ℕ) (inS : Option ℕ) (awake : ℕ) (acc : List (ℕ × ℕ)),
      i + rest.length = L.length →
      (∀ j, L.getD (i + j) true = rest.getD j true) →
      (∀ s, inS = some s → s ≤ i ∧ awake ≤ 3 ∧ awake + s ≤ i ∧
          ∀ t, 1 ≤ t → t ≤ awake → L.getD (i - t) true = false) →
      (∀ p ∈ acc, blockOk L p) →
      ∀ p ∈ detectGo rest i inS awake acc, blockOk L p := by
  intro rest
  induction rest with
  | nil =>
    intro i inS awake acc h1 _ hinv hacc p hp
    simp only [List.length_nil, Nat.add_zero] at h1
    cases inS with
    | none => exact hacc p (by simpa [detectGo] using hp)
    | some s =>
      have hp' : p ∈ (if i - s ≥ 10 then acc ++ [(s, i - 1)] else acc) := hp
      by_cases hge : i - s ≥ 10
      · rw [if_pos hge] at hp'
        rcases List.mem_append.mp hp' with hq | hq
        · exact hacc p hq
        · have hps : p = (s, i - 1) := by simpa using hq
          subst hps
          obtain ⟨hsle, -, -, -⟩ := hinv s rfl
          exact Or.inl ⟨by omega, by omega⟩
      · rw [if_neg hge] at hp'
        exact hacc p hp'
  | cons b rest ih =>
    intro i inS awake acc h1 h2 hinv hacc p hp
    have hb : L.getD i true = b := by simpa using h2 0
    have htailalign : ∀ j, L.getD (i + 1 + j) true = rest.getD j true := by
      intro j
      have hj := h2 (j + 1)
      have harith : i + (j + 1) = i + 1 + j := by omega
      rw [harith] at hj
      simpa using hj
    have hlen : i + 1 + rest.length = L.length := by simp at h1; omega
    have hiL : i < L.length := by simp at h1; omega
    cases b with
    | true =>
      have hp' : p ∈ detectGo rest (i + 1) (some (inS.getD i)) 0 acc := hp
      refine ih (i + 1) (some (inS.getD i)) 0 acc hlen htailalign ?_ hacc p hp'
      intro s hs
      have hs' : inS.getD i = s := by simpa using hs
      have hsle : s ≤ i := by
        cases hinS : inS with
        | none => rw [hinS] at hs'; simp at hs'; omega
        | some s0 =>
          rw [hinS] at hs'
          simp at hs'
          subst hs'
          exact (hinv s0 hinS).1
      exact ⟨by omega, by omega, by omega, fun t ht1 ht2 => absurd ht2 (by omega)⟩
    | false =>
      cases hinS : inS with
      | none =>
        rw [hinS] at hp
        have hp' : p ∈ detectGo rest (i + 1) none awake acc := hp
        exact ih (i + 1) none awake acc hlen htailalign (fun s hs => by cases hs) hacc p hp'
      | some s =>
        rw [hinS] at hp
        obtain ⟨hs1, hs2, hs3, hs4⟩ := hinv s hinS
        have hp' : p ∈ (if awake + 1 > 3
            then detectGo rest (i + 1) none 0
              (if i - s ≥ 10 then acc ++ [(s, i - (awake + 1) - 1)] else acc)
            else detectGo rest (i + 1) (some s) (awake + 1) acc) := hp
        by_cases hclose : awake + 1 > 3
        · rw [if_pos hclose] at hp'
          have hawake : awake = 3 := by omega
          refine ih (i + 1) none 0 _ hlen htailalign (fun s' hs' => by cases hs') ?_ p hp'
          intro q hq
          by_cases hge : i - s ≥ 10
          · rw [if_pos hge] at hq
            rcases List.mem_append.mp hq with hq' | hq'
            · exact hacc q hq'
            · have hqe : q = (s, i - (awake + 1) - 1) := by simpa using hq'
              subst hqe
              refine Or.inr ⟨i, hiL, by omega, by omega, ?_⟩
              intro k hk1 hk2
              rcases Nat.eq_or_lt_of_le hk2 with hk | hk
              · subst hk
                exact hb
              · have ht : k = i - (i - k) := by omega
                rw [ht]
                exact hs4 (i - k) (by omega) (by omega)
          · rw [if_neg hge] at hq
            exact hacc q hq
        · rw [if_neg hclose] at hp'
          refine ih (i + 1) (some s) (awake + 1) acc hlen htailalign ?_ hacc p hp'
          intro s' hs'
          have hss : s = s' := by simpa using hs'
          subst hss
          refine ⟨by omega, by omega, by omega, ?_⟩
          intro t ht1 ht2
          rcases Nat.eq_or_lt_of_le ht1 with ht | ht
          · rw [← ht]
            simpa using hb
          · have harith : i + 1 - t = i - (t - 1) := by omega
            rw [harith]
            exact hs4 (t - 1) (by omega) (by omega)

/-- On an all-sleep suffix the loop keeps the block open to the end. -/
lemma detectGo_all_sleep :
    ∀ (rest : List Bool) (i s : ℕ) (acc : List (ℕ × ℕ)),
      (∀ b ∈ rest, b = true) →
      detectGo rest i (some s) 0 acc =
        if i + rest.length - s ≥ 10 then acc ++ [(s, i + rest.length - 1)] else acc := by
  intro rest
  induction rest with
  | nil => intro i s acc _; simp [detectGo]
  | cons b rest ih =>
    intro i s acc hall
    have hb : b = true := hall b (List.mem_cons_self b rest)
    subst hb
    have h0 : detectGo (true :: rest) i (some s) 0 acc =
        detectGo rest (i + 1) (some s) 0 acc := rfl
    rw [h0, ih (i + 1) s acc (fun x hx => hall x (List.mem_cons_of_mem _ hx))]
    simp only [List.length_cons]
    have h1 : i + 1 + rest.length = i + (rest.length + 1) := by omega
    rw [h1]

/-- C6 (amended): a sleep block stays open through up to 3 consecutive
non-sleep epochs and closes at the 4th, at index `i`; it is recorded only if
`i - start ≥ 10`, and the recorded end is then `i - 5` (so a recorded closed
block may span as few as 6 epochs); the final still-open block is recorded iff
`length - start ≥ 10`, ending at the last epoch; consequently an all-sleep
series of length ≥ 10 yields exactly the single block `(0, length - 1)`. -/
theorem sleep_block_detection :
    (∀ (L : List Bool), ∀ p ∈ detectBlocks L, blockOk L p) ∧
    (∀ L : List Bool, (∀ b ∈ L, b = true) → 10 ≤ L.length →
      detectBlocks L = [(0, L.length - 1)]) := by
  constructor
  · intro L p hp
    exact detectGo_spec L L 0 none 0 [] (by simp) (fun j => by simp)
      (fun s hs => by cases hs) (by simp) p hp
  · intro L hall hlen
    cases L with
    | nil => simp at hlen
    | cons b rest =>
      have hb : b = true := hall b (List.mem_cons_self b rest)
      subst hb
      have h0 : detectBlocks (true :: rest) = detectGo rest 1 (some 0) 0 [] := rfl
      rw [h0, detectGo_all_sleep rest 1 0 [] (fun x hx => hall x (List.mem_cons_of_mem _ hx))]
      simp only [List.length_cons] at hlen ⊢
      rw [if_pos (by omega)]
      simp only [List.nil_append]
      have h1 : 1 + rest.length - 1 = rest.length + 1 - 1 := by omega
      rw [h1]

/-- C6 (counterexample to the claim as stated): on 7 sleep epochs followed by
4 wake epochs, the loop closes the block at the 4th wake epoch (index 10,
`10 - 0 ≥ 10`) and records `(0, 5)` — a block spanning only 6 epochs, fewer
than the claimed minimum of 10. -/
theorem sleep_block_short_recorded_block :
    detectBlocks (List.replicate 7 true ++ List.replicate 4 false) = [(0, 5)] ∧
      5 - 0 + 1 < 10 := by
  constructor
  · decide
  · decide

/-- Witness for `sleep_block_detection` at concrete inputs. -/
theorem sleep_block_detection_witness :
    blockOk (List.replicate 10 true) (0, 9) ∧
      detectBlocks (List.replicate 10 true) = [(0, 9)] :=
  ⟨sleep_block_detection.1 (List.replicate 10 true) (0, 9) (by decide),
   by
    have h := sleep_block_detection.2 (List.replicate 10 true) (by decide) (by decide)
    simpa using h⟩

/-! ## C5: the threshold label depends only on the activity percentile -/

/-- C5: the threshold classifier labels an epoch "likely sleep" iff its
activity magnitude is strictly below the 40th percentile of the activity
series; the 60th-percentile heart-rate threshold is computed but never
changes any label (the labels are identical for any heart-rate column). -/
theorem threshold_label_iff_below_40th_percentile
    (act : List ℚ) (hr hr' : List (Option ℚ)) :
    computeLikelySleep act hr = computeLikelySleep act hr' ∧
    computeLikelySleep act hr =
      act.map (fun a => decide (a < pQuantile (40 / 100) act)) ∧
    ∀ i, i < act.length →
      ((computeLikelySleep act hr).getD i false = true ↔
        act.getD i 0 < pQuantile (40 / 100) act) := by
  refine ⟨rfl, rfl, ?_⟩
  intro i hi
  show ((act.map (fun a => decide (a < pQuantile (40 / 100) act))).getD i false = true ↔ _)
  rw [List.getD_eq_getElem?_getD, List.getElem?_map,
    List.getElem?_eq_getElem hi, List.getD_eq_getElem?_getD,
    List.getElem?_eq_getElem hi]
  simp

/-- Witness for `threshold_label_iff_below_40th_percentile` at a concrete
input. -/
theorem threshold_label_witness :
    (computeLikelySleep [0, 10] []).getD 0 false = true ↔
      (0 : ℚ) < pQuantile (40 / 100) [0, 10] :=
  (threshold_label_iff_below_40th_percentile [0, 10] [] []).2.2 0 (by norm_num)

/-! ## Merge stage (`main.py`, `analyze_sleep`, lines 502–527) -/

/-- One activity epoch (`activity_data` row). -/
structure ActRow where
  timestamp : ℚ
  activity_magnitude : ℚ
  movement_intensity : ℚ
deriving DecidableEq, Repr

/-- One heart-rate epoch (`hr_data` row). -/
structure HRRow where
  timestamp : ℚ
  heart_rate : ℚ
deriving DecidableEq, Repr

/-- The heart-rate row nearest in time to `t` (the match `pd.merge_asof`
with `direction='nearest'` performs for one left row); ties prefer the
earlier row, matching pandas' backward preference on equal distance. -/
def nearestHR (hrs : List HRRow) (t : ℚ) : Option HRRow :=
  hrs.foldl
    (fun best h =>
      match best with
      | none => some h
      | some b => if |h.timestamp - t| < |b.timestamp - t| then some h else some b)
    none

/-- The merged output row for one left (activity) row of the nearest merge:
the nearest heart rate is attached when within tolerance, else null. -/
def mergeRowFor (hrs : List HRRow) (tol : ℚ) (a : ActRow) : MRow :=
  match nearestHR hrs a.timestamp with
  | some h =>
    if |h.timestamp - a.timestamp| ≤ tol then
      ⟨a.timestamp, a.activity_magnitude, a.movement_intensity, some h.heart_rate⟩
    else ⟨a.timestamp, a.activity_magnitude, a.movement_intensity, none⟩
  | none => ⟨a.timestamp, a.activity_magnitude, a.movement_intensity, none⟩

/-- `pd.merge_asof(activity, hr, on='timestamp', direction='nearest',
tolerance=30s)`: one output row per (sorted) activity row. -/
def mergeAsofNearest (act : List ActRow) (hrs : List HRRow) (tol : ℚ) : List MRow :=
  act.map (mergeRowFor hrs tol)

/-- The merge stage of `analyze_sleep`: error when both feature series are
empty; heart-rate-only rows get zero activity fields; activity-only rows get
a null heart rate; otherwise a nearest-timestamp merge with 30 s tolerance. -/
def mergeStage (act : List ActRow) (hrs : List HRRow) : Except String (List MRow) :=
  if hrs.length = 0 ∧ act.length = 0 then
    .error "Insufficient sensor data: No heart rate or activity data could be calculated"
  else if act.length = 0 then
    .ok (hrs.map (fun h => ⟨h.timestamp, 0, 0, some h.heart_rate⟩))
  else if hrs.length = 0 then
    .ok (act.map (fun a => ⟨a.timestamp, a.activity_magnitude, a.movement_intensity, none⟩))
  else
    .ok (mergeAsofNearest
      (sortByLe (fun x y => x.timestamp ≤ y.timestamp) act)
      (sortByLe (fun x y => x.timestamp ≤ y.timestamp) hrs) 30)

/-- C8: merge degeneracy — a non-empty activity series with an empty
heart-rate series yields one row per activity epoch with a null heart rate;
a non-empty heart-rate series with an empty activity series yields the
heart-rate rows with zero activity fields; both empty is a fatal error. -/
theorem merge_degeneracy :
    (∀ act : List ActRow, act ≠ [] →
        mergeStage act [] = .ok (act.map (fun a =>
          ⟨a.timestamp, a.activity_magnitude, a.movement_intensity, none⟩))) ∧
    (∀ hrs : List HRRow, hrs ≠ [] →
        mergeStage [] hrs = .ok (hrs.map (fun h =>
          ⟨h.timestamp, 0, 0, some h.heart_rate⟩))) ∧
    mergeStage [] [] =
      .error "Insufficient sensor data: No heart rate or activity data could be calculated" := by
  refine ⟨?_, ?_, rfl⟩
  · intro act h
    have hne : act.length ≠ 0 := by simpa using fun hh => h (List.length_eq_zero.mp hh)
    simp [mergeStage, hne]
  · intro hrs h
    have hne : hrs.length ≠ 0 := by simpa using fun hh => h (List.length_eq_zero.mp hh)
    simp [mergeStage, hne]

/-- Witness for `merge_degeneracy` at concrete inputs. -/
theorem merge_degeneracy_witness :
    mergeStage [⟨0, 1, 2⟩] [] = .ok [⟨0, 1, 2, none⟩] ∧
    mergeStage [] [⟨0, 70⟩] = .ok [⟨0, 0, 0, some 70⟩] :=
  ⟨merge_degeneracy.1 [⟨0, 1, 2⟩] (List.cons_ne_nil _ _),
   merge_degeneracy.2.1 [⟨0, 70⟩] (List.cons_ne_nil _ _)⟩

/-- Inserting into a list grows its length by one. -/
lemma insertSorted_length {α : Type} (le : α → α → Bool) (x : α) :
    ∀ l : List α, (insertSorted le x l).length = l.length + 1 := by
  intro l
  induction l with
  | nil => rfl
  | cons y rest ih =>
    simp only [insertSorted]
    split
    · simp
    · simp [ih]

/-- Sorting preserves length. -/
lemma sortByLe_length {α : Type} (le : α → α → Bool) (l : List α) :
    (sortByLe le l).length = l.length := by
  induction l with
  | nil => rfl
  | cons y rest ih =>
    simp only [sortByLe, List.foldr_cons] at ih ⊢
    rw [insertSorted_length, ih, List.length_cons]

/-- Membership is preserved by insertion. -/
lemma insertSorted_mem {α : Type} (le : α → α → Bool) (x y : α) :
    ∀ l : List α, y ∈ insertSorted le x l ↔ y = x ∨ y ∈ l := by
  intro l
  induction l with
  | nil => simp [insertSorted]
  | cons z rest ih =>
    simp only [insertSorted]
    split
    · simp [List.mem_cons]
    · simp only [List.mem_cons, ih]
      tauto

/-- Membership is preserved by sorting. -/
lemma sortByLe_mem {α : Type} (le : α → α → Bool) (y : α) :
    ∀ l : List α, y ∈ sortByLe le l ↔ y ∈ l := by
  intro l
  induction l with
  | nil => simp [sortByLe]
  | cons z rest ih =>
    simp only [sortByLe, List.foldr_cons] at ih ⊢
    rw [insertSorted_mem]
    simp only [List.mem_cons, ih]

/-- The nearest heart-rate row is a member of the series. -/
lemma nearestHR_mem (hrs : List HRRow) (t : ℚ) (h : HRRow)
    (hh : nearestHR hrs t = some h) : h ∈ hrs := by
  suffices hgen : ∀ (l : List HRRow) (acc : Option HRRow) (x : HRRow),
      (l.foldl (fun best hh =>
        match best with
        | none => some hh
        | some b => if |hh.timestamp - t| < |b.timestamp - t| then some hh else some b)
        acc) = some x → acc = some x ∨ x ∈ l by
    rcases hgen hrs none h hh with hc | hc
    · cases hc
    · exact hc
  intro l
  induction l with
  | nil => intro acc x hx; exact Or.inl (by simpa using hx)
  | cons z rest ih =>
    intro acc x hx
    simp only [List.foldl_cons] at hx
    rcases ih _ x hx with hc | hc
    · match acc with
      | none =>
        simp only at hc
        exact Or.inr (List.mem_cons.mpr (Or.inl (by simpa using hc.symm)))
      | some b =>
        simp only at hc
        split at hc
        · exact Or.inr (List.mem_cons.mpr (Or.inl (by simpa using hc.symm)))
        · exact Or.inl (by simpa using hc)
    · exact Or.inr (List.mem_cons.mpr (Or.inr hc))

/-- Per-row specification of the nearest merge: the activity fields pass
through unchanged, and the heart rate is null or the rate of a heart-rate
row within tolerance. -/
lemma mergeRowFor_spec (hrs : List HRRow) (tol : ℚ) (a : ActRow) :
    (mergeRowFor hrs tol a).timestamp = a.timestamp ∧
    (mergeRowFor hrs tol a).activity_magnitude = a.activity_magnitude ∧
    (mergeRowFor hrs tol a).movement_intensity = a.movement_intensity ∧
    ((mergeRowFor hrs tol a).heart_rate = none ∨
      ∃ h ∈ hrs, |h.timestamp - a.timestamp| ≤ tol ∧
        (mergeRowFor hrs tol a).heart_rate = some h.heart_rate) := by
  unfold mergeRowFor
  split
  · next h heq =>
    split
    · next htol =>
      exact ⟨rfl, rfl, rfl, Or.inr ⟨h, nearestHR_mem hrs _ h heq, htol, rfl⟩⟩
    · exact ⟨rfl, rfl, rfl, Or.inl rfl⟩
  · exact ⟨rfl, rfl, rfl, Or.inl rfl⟩

/-- C10: when both series are non-empty, the merged series has exactly one
row per activity epoch — the `i`-th merged row carries the `i`-th (sorted)
activity epoch's timestamp and activity fields, and its heart rate is either
null or the rate of some heart-rate epoch within 30 seconds of that row;
heart-rate epochs with no activity epoch within 30 seconds contribute no
row. -/
theorem merge_one_row_per_activity_epoch
    (act : List ActRow) (hrs : List HRRow) (ha : act ≠ []) (hh : hrs ≠ []) :
    ∃ merged, mergeStage act hrs = .ok merged ∧
      merged.length = act.length ∧
      ∀ i, i < merged.length →
        (merged.getD i ⟨0, 0, 0, none⟩).timestamp =
          ((sortByLe (fun x y => x.timestamp ≤ y.timestamp) act).getD i ⟨0, 0, 0⟩).timestamp ∧
        (merged.getD i ⟨0, 0, 0, none⟩).activity_magnitude =
          ((sortByLe (fun x y => x.timestamp ≤ y.timestamp) act).getD i ⟨0, 0, 0⟩).activity_magnitude ∧
        (merged.getD i ⟨0, 0, 0, none⟩).movement_intensity =
          ((sortByLe (fun x y => x.timestamp ≤ y.timestamp) act).getD i ⟨0, 0, 0⟩).movement_intensity ∧
        ((merged.getD i ⟨0, 0, 0, none⟩).heart_rate = none ∨
          ∃ h ∈ hrs, |h.timestamp - (merged.getD i ⟨0, 0, 0, none⟩).timestamp| ≤ 30 ∧
            (merged.getD i ⟨0, 0, 0, none⟩).heart_rate = some h.heart_rate) := by
  have hane : act.length ≠ 0 := by simpa using fun hc => ha (List.length_eq_zero.mp hc)
  have hhne : hrs.length ≠ 0 := by simpa using fun hc => hh (List.length_eq_zero.mp hc)
  refine ⟨mergeAsofNearest
      (sortByLe (fun x y => x.timestamp ≤ y.timestamp) act)
      (sortByLe (fun x y => x.timestamp ≤ y.timestamp) hrs) 30, ?_, ?_, ?_⟩
  · simp [mergeStage, hane, hhne]
  · rw [mergeAsofNearest, List.length_map, sortByLe_length]
  · intro i hi
    rw [mergeAsofNearest, List.length_map] at hi
    set sa := sortByLe (fun x y => x.timestamp ≤ y.timestamp) act with hsa
    set sh := sortByLe (fun x y => x.timestamp ≤ y.timestamp) hrs with hsh
    have hrow : (mergeAsofNearest sa sh 30).getD i ⟨0, 0, 0, none⟩ =
        mergeRowFor sh 30 (sa.getD i ⟨0, 0, 0⟩) := by
      rw [mergeAsofNearest, List.getD_eq_getElem?_getD, List.getElem?_map,
        List.getElem?_eq_getElem hi, List.getD_eq_getElem?_getD,
        List.getElem?_eq_getElem hi]
      rfl
    rw [hrow]
    obtain ⟨h1, h2, h3, h4⟩ := mergeRowFor_spec sh 30 (sa.getD i ⟨0, 0, 0⟩)
    refine ⟨h1, h2, h3, ?_⟩
    rcases h4 with h4 | ⟨h, hmem, htol, heq⟩
    · exact Or.inl h4
    · refine Or.inr ⟨h, (sortByLe_mem _ h hrs).mp hmem, ?_, heq⟩
      rw [h1]
      exact htol

/-- Witness for `merge_one_row_per_activity_epoch` at concrete inputs. -/
theorem merge_one_row_per_activity_epoch_witness :
    ∃ merged, mergeStage [⟨0, 1, 2⟩] [⟨5, 70⟩] = .ok merged ∧
      merged.length = ([⟨0, 1, 2⟩] : List ActRow).length ∧
      ∀ i, i < merged.length →
        (merged.getD i ⟨0, 0, 0, none⟩).timestamp =
          ((sortByLe (fun x y => x.timestamp ≤ y.timestamp)
            ([⟨0, 1, 2⟩] : List ActRow)).getD i ⟨0, 0, 0⟩).timestamp ∧
        (merged.getD i ⟨0, 0, 0, none⟩).activity_magnitude =
          ((sortByLe (fun x y => x.timestamp ≤ y.timestamp)
            ([⟨0, 1, 2⟩] : List ActRow)).getD i ⟨0, 0, 0⟩).activity_magnitude ∧
        (merged.getD i ⟨0, 0, 0, none⟩).movement_intensity =
          ((sortByLe (fun x y => x.timestamp ≤ y.timestamp)
            ([⟨0, 1, 2⟩] : List ActRow)).getD i ⟨0, 0, 0⟩).movement_intensity ∧
        ((merged.getD i ⟨0, 0, 0, none⟩).heart_rate = none ∨
          ∃ h ∈ ([⟨5, 70⟩] : List HRRow),
            |h.timestamp - (merged.getD i ⟨0, 0, 0, none⟩).timestamp| ≤ 30 ∧
            (merged.getD i ⟨0, 0, 0, none⟩).heart_rate = some h.heart_rate) :=
  merge_one_row_per_activity_epoch [⟨0, 1, 2⟩] [⟨5, 70⟩]
    (List.cons_ne_nil _ _) (List.cons_ne_nil _ _)

/-! ## HAVOK state-transition detection (`havok_analysis.py`,
`detect_state_transitions` and the `[:20]` truncation in
`apply_havok_analysis`) -/

/-- `np.percentile(xs, p)`: same linear interpolation as the pandas
quantile, with `p` on the 0–100 scale. -/
def npPercentile (p : ℚ) (xs : List ℚ) : ℚ := pQuantile (p / 100) xs

/-- The grouping loop of `detect_state_transitions`: `prev` is the index of
the previous candidate (initially `-100`); a candidate more than 10 samples
past the previous candidate starts a new transition event, and `prev` is
updated at every candidate (absorbed or not). -/
def stGo (f : List ℚ) : List ℕ → ℤ → List (ℕ × ℚ)
  | [], _ => []
  | i :: rest, prev =>
    if (i : ℤ) - prev > 10 then (i, |f.getD i 0|) :: stGo f rest (i : ℤ)
    else stGo f rest (i : ℤ)

/-- Candidate transition indices:
`np.where(np.abs(forcing_signal) > threshold)[0]` with
`threshold = np.percentile(np.abs(forcing_signal), 75)`. -/
def stCandidates (f : List ℚ) : List ℕ :=
  (List.range f.length).filter
    (fun i => npPercentile 75 (f.map (fun x => |x|)) < |f.getD i 0|)

/-- `detect_state_transitions(forcing_signal, threshold_percentile=75)`:
events of `(sample_index, magnitude)` (the early return on an empty
candidate set is kept from the source). -/
def detectStateTransitions (f : List ℚ) : List (ℕ × ℚ) :=
  if stCandidates f = [] then [] else stGo f (stCandidates f) (-100)

/-- The `state_transitions[:20]` truncation applied in
`apply_havok_analysis`. -/
def stateTransitionsTrunc (f : List ℚ) : List (ℕ × ℚ) :=
  (detectStateTransitions f).take 20

/-- Membership characterization of the grouping loop over a strictly
increasing candidate list: an event starts at `i` iff `i` is a candidate
more than 10 past `prev` and more than 10 past every earlier candidate. -/
lemma stGo_mem_iff (f : List ℚ) :
    ∀ (cands : List ℕ) (prev : ℤ),
      List.Pairwise (· < ·) cands →
      (∀ c ∈ cands, prev < (c : ℤ)) →
      ∀ (i : ℕ) (m : ℚ),
        ((i, m) ∈ stGo f cands prev ↔
          (i ∈ cands ∧ m = |f.getD i 0| ∧ (i : ℤ) - prev > 10 ∧
            ∀ j ∈ cands, j < i → (i : ℤ) - (j : ℤ) > 10)) := by
  intro cands
  induction cands with
  | nil => intro prev _ _ i m; simp [stGo]
  | cons c rest ih =>
    intro prev hpw hgt i m
    have hpw' : List.Pairwise (· < ·) rest := (List.pairwise_cons.mp hpw).2
    have hcr : ∀ j ∈ rest, c < j := (List.pairwise_cons.mp hpw).1
    have hgt' : ∀ j ∈ rest, (c : ℤ) < (j : ℤ) := by
      intro j hj
      exact_mod_cast hcr j hj
    have hprevc : prev < (c : ℤ) := hgt c (List.mem_cons_self c rest)
    by_cases hc : (c : ℤ) - prev > 10
    · have hstep : stGo f (c :: rest) prev = (c, |f.getD c 0|) :: stGo f rest (c : ℤ) := by
        simp [stGo, hc]
      rw [hstep, List.mem_cons, ih (c : ℤ) hpw' hgt']
      constructor
      · rintro (heq | ⟨hir, hm, hgap, hall⟩)
        · have hi : i = c := congrArg Prod.fst heq
          have hm : m = |f.getD c 0| := congrArg Prod.snd heq
          subst hi
          refine ⟨List.mem_cons_self _ _, hm, hc, ?_⟩
          intro j hj hji
          rcases List.mem_cons.mp hj with heq' | hjr
          · omega
          · exact absurd hji (by have := hcr j hjr; omega)
        · have hci : (c : ℤ) < (i : ℤ) := hgt' i hir
          refine ⟨List.mem_cons.mpr (Or.inr hir), hm, by omega, ?_⟩
          intro j hj hji
          rcases List.mem_cons.mp hj with heq' | hjr
          · subst heq'
            exact hgap
          · exact hall j hjr hji
      · rintro ⟨hmem, hm, hgap, hall⟩
        rcases List.mem_cons.mp hmem with heq | hir
        · subst heq
          exact Or.inl (by rw [hm])
        · refine Or.inr ⟨hir, hm, ?_,
            fun j hj hji => hall j (List.mem_cons.mpr (Or.inr hj)) hji⟩
          exact hall c (List.mem_cons_self c rest) (hcr i hir)
    · have hstep : stGo f (c :: rest) prev = stGo f rest (c : ℤ) := by
        simp [stGo, hc]
      rw [hstep, ih (c : ℤ) hpw' hgt']
      constructor
      · rintro ⟨hir, hm, hgap, hall⟩
        have hci : (c : ℤ) < (i : ℤ) := hgt' i hir
        refine ⟨List.mem_cons.mpr (Or.inr hir), hm, by omega, ?_⟩
        intro j hj hji
        rcases List.mem_cons.mp hj with heq' | hjr
        · subst heq'
          exact hgap
        · exact hall j hjr hji
      · rintro ⟨hmem, hm, hgap, hall⟩
        rcases List.mem_cons.mp hmem with heq | hir
        · subst heq
          exact absurd hgap hc
        · exact ⟨hir, hm, hall c (List.mem_cons_self c rest) (hcr i hir),
            fun j hj hji => hall j (List.mem_cons.mpr (Or.inr hj)) hji⟩

/-- The event indices form a sublist of the candidate list. -/
lemma stGo_fst_sublist (f : List ℚ) :
    ∀ (cands : List ℕ) (prev : ℤ), ((stGo f cands prev).map Prod.fst).Sublist cands := by
  intro cands
  induction cands with
  | nil => intro prev; simp [stGo]
  | cons c rest ih =>
    intro prev
    by_cases hc : (c : ℤ) - prev > 10
    · have hstep : stGo f (c :: rest) prev = (c, |f.getD c 0|) :: stGo f rest (c : ℤ) := by
        simp [stGo, hc]
      rw [hstep]
      simpa using List.Sublist.cons₂ c (ih (c : ℤ))
    · have hstep : stGo f (c :: rest) prev = stGo f rest (c : ℤ) := by
        simp [stGo, hc]
      rw [hstep]
      exact (ih (c : ℤ)).cons c

/-- Membership in the candidate list. -/
lemma stCandidates_mem (f : List ℚ) (i : ℕ) :
    i ∈ stCandidates f ↔
      i < f.length ∧ npPercentile 75 (f.map (fun x => |x|)) < |f.getD i 0| := by
  unfold stCandidates
  rw [List.mem_filter, List.mem_range]
  simp

/-- The candidate list is strictly increasing. -/
lemma stCandidates_pairwise (f : List ℚ) :
    List.Pairwise (· < ·) (stCandidates f) :=
  (List.pairwise_lt_range f.length).filter _

/-- C9: HAVOK state-transition detection — `(i, m)` is a detected event iff
`|forcing[i]|` strictly exceeds the 75th percentile of the absolute forcing
signal, `m` is that magnitude, and no index within the previous 10 samples
also exceeds the threshold (candidates within 10 samples of the previous
candidate are absorbed); events are produced in increasing index order, and
the output of `apply_havok_analysis` is the first 20 of them. -/
theorem havok_state_transitions (f : List ℚ) :
    (∀ (i : ℕ) (m : ℚ),
      (i, m) ∈ detectStateTransitions f ↔
        (i < f.length ∧ npPercentile 75 (f.map (fun x => |x|)) < |f.getD i 0| ∧
         m = |f.getD i 0| ∧
         ∀ j, j < i → i - j ≤ 10 →
           ¬(npPercentile 75 (f.map (fun x => |x|)) < |f.getD j 0|))) ∧
    List.Pairwise (· < ·) ((detectStateTransitions f).map Prod.fst) ∧
    (stateTransitionsTrunc f).length ≤ 20 ∧
    stateTransitionsTrunc f <+: detectStateTransitions f := by
  have hdet : detectStateTransitions f = stGo f (stCandidates f) (-100) := by
    unfold detectStateTransitions
    by_cases hemp : stCandidates f = []
    · rw [if_pos hemp, hemp]
      rfl
    · rw [if_neg hemp]
  refine ⟨?_, ?_, ?_, ?_⟩
  · intro i m
    rw [hdet, stGo_mem_iff f (stCandidates f) (-100) (stCandidates_pairwise f)
      (fun c _ => by omega)]
    rw [stCandidates_mem]
    constructor
    · rintro ⟨⟨hlen, hthr⟩, hm, -, hall⟩
      refine ⟨hlen, hthr, hm, ?_⟩
      intro j hji hgap hthr'
      have hj : j ∈ stCandidates f := (stCandidates_mem f j).mpr ⟨by omega, hthr'⟩
      have := hall j hj hji
      omega
    · rintro ⟨hlen, hthr, hm, hall⟩
      refine ⟨⟨hlen, hthr⟩, hm, by omega, ?_⟩
      intro j hj hji
      have hjc := (stCandidates_mem f j).mp hj
      by_contra hgap
      exact hall j hji (by omega) hjc.2
  · rw [hdet]
    exact (stCandidates_pairwise f).sublist (stGo_fst_sublist f (stCandidates f) (-100))
  · unfold stateTransitionsTrunc
    rw [List.length_take]
    omega
  · exact List.take_prefix _ _

/-! ## PPG heart-rate extraction (`main.py`, `calculate_heart_rate_from_ppg`)

`scipy.signal.find_peaks` is modelled faithfully for the arguments the code
passes (`distance=50`, `prominence=0.5`, `height=0.3`): plateau-midpoint
local maxima, then the height filter, then the distance filter, then the
prominence filter — scipy's evaluation order. The definitions are generic in
a linear ordered field so they are computable at `ℚ`; the z-normalization
divides by `np.std + 1e-8`, which involves a square root, so the per-window
pipeline itself lives over `ℝ`. -/

/-- Skip a plateau of value `v`: first index `j` with `j = imax` or
`x j ≠ v` (fuel-bounded scan, mirroring scipy's inner `while`). -/
def plateauEnd {α : Type} [LinearOrderedField α] (x : ℕ → α) (imax : ℕ) (v : α) :
    ℕ → ℕ → ℕ
  | j, 0 => j
  | j, fuel + 1 => if j < imax ∧ x j = v then plateauEnd x imax v (j + 1) fuel else j

/-- scipy `_local_maxima_1d`: scan `i` from 1 to `imax − 1`; a strictly
rising edge followed (after any plateau) by a strictly falling edge records
the plateau midpoint `(left + right) / 2`; the scan resumes past the
plateau. -/
def lmGo {α : Type} [LinearOrderedField α] (x : ℕ → α) (imax : ℕ) : ℕ → ℕ → List ℕ
  | _, 0 => []
  | i, fuel + 1 =>
    if i < imax then
      if x (i - 1) < x i then
        let ia := plateauEnd x imax (x i) (i + 1) fuel
        if x ia < x i then ((i + (ia - 1)) / 2) :: lmGo x imax (ia + 1) fuel
        else lmGo x imax (i + 1) fuel
      else lmGo x imax (i + 1) fuel
    else []

/-- Local maxima (plateau midpoints) of a sampled signal; the borders are
never peaks. -/
def localMaxima {α : Type} [LinearOrderedField α] (xs : List α) : List ℕ :=
  lmGo (fun i => xs.getD i 0) (xs.length - 1) 1 (xs.length + 1)

/-- Clear the keep-flags of all other peaks within `d` samples of peak
position `j` (for a sorted peak list this is exactly scipy's two inner
`while` loops of `_select_by_peak_distance`). -/
def clearNear (peaks : List ℕ) (d j : ℕ) (keep : List Bool) : List Bool :=
  (List.range keep.length).map (fun k =>
    if k ≠ j ∧ max (peaks.getD j 0) (peaks.getD k 0)
        - min (peaks.getD j 0) (peaks.getD k 0) < d then false
    else keep.getD k false)

/-- Process peak positions in an order list (highest priority first): a peak
still kept clears its neighbours within `d` samples. -/
def dselGo (peaks : List ℕ) (d : ℕ) : List ℕ → List Bool → List Bool
  | [], keep => keep
  | j :: order, keep =>
    if keep.getD j false then dselGo peaks d order (clearNear peaks d j keep)
    else dselGo peaks d order keep

/-- scipy `_select_by_peak_distance`: iterate peaks by descending priority
(`np.argsort` of the peak heights; tie order is unspecified in numpy's
quicksort, modelled here with a deterministic sort), clearing lower-priority
peaks within `distance` samples of a kept peak. -/
def selectByPeakDistance {α : Type} [LinearOrderedField α]
    (peaks : List ℕ) (prio : ℕ → α) (d : ℕ) : List Bool :=
  let order := (sortByLe (fun a b => prio a ≤ prio b) (List.range peaks.length)).reverse
  dselGo peaks d order (List.replicate peaks.length true)

/-- Scan left from a peak while samples stay `≤` the peak value, tracking
the minimum (scipy `_peak_prominences`, left base). -/
def scanLeft {α : Type} [LinearOrderedField α] (x : ℕ → α) (v : α) :
    ℕ → α → ℕ → α
  | _, cur, 0 => cur
  | i, cur, fuel + 1 =>
    if x i ≤ v then
      let cur' := min cur (x i)
      if i = 0 then cur' else scanLeft x v (i - 1) cur' fuel
    else cur

/-- Scan right from a peak while samples stay `≤` the peak value, tracking
the minimum (scipy `_peak_prominences`, right base). -/
def scanRight {α : Type} [LinearOrderedField α] (x : ℕ → α) (v : α) (n : ℕ) :
    ℕ → α → ℕ → α
  | _, cur, 0 => cur
  | i, cur, fuel + 1 =>
    if i < n ∧ x i ≤ v then
      let cur' := min cur (x i)
      scanRight x v n (i + 1) cur' fuel
    else cur

/-- Prominence of a peak at position `p` (whole-signal window, `wlen`
unset): peak value minus the higher of the two base minima. -/
def prominenceAt {α : Type} [LinearOrderedField α] (xs : List α) (p : ℕ) : α :=
  let x := fun i => xs.getD i 0
  let leftMin := scanLeft x (x p) p (x p) (p + 1)
  let rightMin := scanRight x (x p) xs.length p (x p) (xs.length + 1)
  x p - max leftMin rightMin

/-- `scipy.signal.find_peaks(xs, distance=d, prominence=pmin, height=hmin)`
for the argument shapes used by the code: local maxima, height filter,
distance filter, prominence filter, in scipy's order. -/
def findPeaks {α : Type} [LinearOrderedField α] (xs : List α)
    (hmin pmin : α) (d : ℕ) : List ℕ :=
  let x := fun i => xs.getD i 0
  let pk0 := localMaxima xs
  let pk1 := pk0.filter (fun p => hmin ≤ x p)
  let keep := selectByPeakDistance pk1 (fun j => x (pk1.getD j 0)) d
  let pk2 := ((List.range pk1.length).filter (fun j => keep.getD j false)).map
    (fun j => pk1.getD j 0)
  pk2.filter (fun p => pmin ≤ prominenceAt xs p)

/-- `np.median` of the (natural-number) peak-interval list: middle order
statistic, or the mean of the two middle ones for even length. -/
def npMedian (xs : List ℕ) : ℚ :=
  let s := sortByLe (fun a b => a ≤ b) xs
  let n := s.length
  if n = 0 then 0
  else if n % 2 = 1 then (s.getD (n / 2) 0 : ℚ)
  else ((s.getD (n / 2 - 1) 0 : ℚ) + (s.getD (n / 2) 0 : ℚ)) / 2

/-- `(ppg_values - np.mean(ppg_values)) / (np.std(ppg_values) + 1e-8)`:
z-normalization of a window (population standard deviation). -/
noncomputable def znormalize (w : List ℚ) : List ℝ :=
  let n : ℝ := w.length
  let mean : ℝ := (w.map (fun q => (q : ℝ))).sum / n
  let sd : ℝ := Real.sqrt ((w.map (fun q => ((q : ℝ) - mean) ^ 2)).sum / n)
  w.map (fun q => ((q : ℝ) - mean) / (sd + 1 / 10 ^ 8))

/-- One 1-minute window of `calculate_heart_rate_from_ppg`: requires ≥ 50
samples, ≥ 2 detected peaks on the z-normalized values
(`distance=50, prominence=0.5, height=0.3`), computes
`heart_rate = (135 / median(diff(peaks))) * 60`, and emits the epoch only
when `30 <= heart_rate <= 200`. -/
noncomputable def calculateHRForWindow (w : List ℚ) : Option ℚ :=
  if w.length ≥ 50 then
    let peaks := findPeaks (znormalize w) ((3 : ℝ) / 10) ((1 : ℝ) / 2) 50
    if peaks.length ≥ 2 then
      let intervals := List.zipWith (fun a b => a - b) peaks.tail peaks
      let avgInterval := npMedian intervals
      let hr := 135 / avgInterval * 60
      if 30 ≤ hr ∧ hr ≤ 200 then some hr else none
    else none
  else none

/-- C7: whenever a 1-minute PPG window yields a heart-rate epoch, the window
has at least 50 samples, peak detection on the z-normalized values found at
least 2 peaks, the rate equals `(135 / median of consecutive peak-index
differences) × 60`, and the rate lies in `[30, 200]` — outside that range
(or when the sample/peak floors fail) the epoch is omitted, never emitted as
zero. -/
theorem ppg_window_heart_rate (w : List ℚ) :
    (calculateHRForWindow w).elim True (fun hr =>
      w.length ≥ 50 ∧
      (findPeaks (znormalize w) ((3 : ℝ) / 10) ((1 : ℝ) / 2) 50).length ≥ 2 ∧
      hr = 135 / npMedian (List.zipWith (fun a b => a - b)
        (findPeaks (znormalize w) ((3 : ℝ) / 10) ((1 : ℝ) / 2) 50).tail
        (findPeaks (znormalize w) ((3 : ℝ) / 10) ((1 : ℝ) / 2) 50)) * 60 ∧
      30 ≤ hr ∧ hr ≤ 200) := by
  simp only [calculateHRForWindow]
  split
  · next h1 =>
    split
    · next h2 =>
      split
      · next h3 => exact ⟨h1, h2, rfl, h3.1, h3.2⟩
      · trivial
    · trivial
  · trivial

end PolarSensor
